import Mathlib

/-!
# A shallow embedding of the `agentic-search` multi-hop retrieval agent

This file embeds the core of the Rust repository `agentic-search` in Lean:

* text handling (`src/agent/reader.rs`: `truncate`, the accumulated-context
  summary of `Reader::read`),
* decision parsing (`src/agent/reader.rs`: `parse_decision`),
* planner query parsing (`src/agent/planner.rs`: `Planner::plan`),
* the hop loop and run-record assembly (`src/agent/mod.rs`: `Agent::ask`),
* the LLM client extraction step (`src/llm/client.rs`: `LlmClient::complete`),
* the batch-evaluation loop and its aggregate summary (`src/main.rs`).

Modelling conventions:

* Rust strings are lists of Unicode characters (`Str`); where the source
  works with byte indices (UTF-8), byte lengths are computed with
  `Char.utf8Size`.
* `serde_json` is modelled by an executable JSON parser (`jsonFromStr`)
  over the fragment of JSON the program exchanges, together with the
  derived deserializers for `Vec<String>` and the `ReaderOutput` struct.
* Machine integers (`u32`) are natural numbers; every operation that can
  wrap in the source carries an explicit `% 2 ^ 32`.
* `f64` cost values are modelled as rationals: the claims under study are
  about which components are summed, not about float rounding.
* Fallible external calls (HTTP transport, Qdrant, the log file) are
  modelled by `Except Err` valued oracles; a Rust panic is modelled as
  `Option.none` at the outermost level of the affected function.
-/

namespace AgenticSearch

/-- Text modelled as the list of Unicode scalar values of a Rust `String`. -/
abbrev Str := List Char

/-- An `anyhow::Error` is modelled by its message. -/
abbrev Err := String

instance {ε α : Type} [DecidableEq ε] [DecidableEq α] : DecidableEq (Except ε α) := fun x y =>
  match x, y with
  | Except.ok a, Except.ok b =>
    if h : a = b then Decidable.isTrue (by rw [h]) else Decidable.isFalse (by simp [h])
  | Except.error a, Except.error b =>
    if h : a = b then Decidable.isTrue (by rw [h]) else Decidable.isFalse (by simp [h])
  | Except.ok _, Except.error _ => Decidable.isFalse (by simp)
  | Except.error _, Except.ok _ => Decidable.isFalse (by simp)

/-- The UTF-8 byte length of a text, mirroring Rust's `str::len`. -/
def utf8Len (s : Str) : Nat := (s.map Char.utf8Size).sum

/-! ## JSON values and parsing (model of `serde_json`)

The program only ever inspects strings, arrays and object fields, so the
numeric value of a JSON number is never needed; the parser still has to
accept and reject exactly the right texts, so numbers are tokenised. -/

/-- JSON values, as produced by the model of `serde_json::from_str`. -/
inductive Json where
  | null : Json
  | bool (b : Bool) : Json
  | num : Json
  | str (s : Str) : Json
  | arr (elems : List Json) : Json
  | obj (fields : List (Str × Json)) : Json

/-- JSON insignificant whitespace. -/
def isJsonWs (c : Char) : Bool := c = ' ' || c = '\t' || c = '\n' || c = '\r'

/-- Skip insignificant whitespace. -/
def skipWs (s : Str) : Str := s.dropWhile isJsonWs

/-- Value of one hexadecimal digit. -/
def hexVal (c : Char) : Option Nat :=
  if '0' ≤ c ∧ c ≤ '9' then some (c.toNat - '0'.toNat)
  else if 'a' ≤ c ∧ c ≤ 'f' then some (c.toNat - 'a'.toNat + 10)
  else if 'A' ≤ c ∧ c ≤ 'F' then some (c.toNat - 'A'.toNat + 10)
  else none

/-- Four hexadecimal digits of a `\uXXXX` escape. -/
def parseHex4 : Str → Option (Nat × Str)
  | a :: b :: c :: d :: rest =>
    match hexVal a, hexVal b, hexVal c, hexVal d with
    | some x, some y, some z, some w => some (((x * 16 + y) * 16 + z) * 16 + w, rest)
    | _, _, _, _ => none
  | _ => none

/-- Match a literal suffix (the tail of `null` / `true` / `false`). -/
def stripLit : Str → Str → Option Str
  | [], s => some s
  | _ :: _, [] => none
  | c :: cs, d :: ds => if c = d then stripLit cs ds else none

/-- Consume one or more decimal digits, returning the remainder. -/
def digits1 : Str → Option Str
  | [] => none
  | c :: rest => if c.isDigit then some (rest.dropWhile Char.isDigit) else none

/-- The integer part of a JSON number: `0`, or a nonzero leading digit
followed by any digits. -/
def parseIntPart : Str → Option Str
  | [] => none
  | c :: rest =>
    if c = '0' then some rest
    else if c.isDigit then some (rest.dropWhile Char.isDigit) else none

/-- The optional fraction part of a JSON number. -/
def parseFrac : Str → Option Str
  | '.' :: rest => digits1 rest
  | s => some s

/-- The optional exponent part of a JSON number. -/
def parseExp : Str → Option Str
  | [] => some []
  | c :: rest =>
    if c = 'e' ∨ c = 'E' then
      match rest with
      | s :: rest2 => if s = '+' ∨ s = '-' then digits1 rest2 else digits1 (s :: rest2)
      | [] => none
    else some (c :: rest)

/-- Tokenise a JSON number (starting at its first character), returning the
remainder of the input. -/
def parseNumber (s : Str) : Option Str :=
  let s1 := match s with
    | '-' :: r => r
    | _ => s
  (parseIntPart s1).bind fun r1 => (parseFrac r1).bind parseExp

/-- The body of a JSON string, after its opening quote: returns the decoded
content and the remainder after the closing quote.  Escapes follow RFC 8259
as `serde_json` implements them: lone surrogates are rejected, surrogate
pairs are combined. -/
def parseStringBody : Nat → Str → Option (Str × Str)
  | 0, _ => none
  | fuel + 1, s =>
    match s with
    | [] => none
    | c :: rest =>
      if c = '"' then some ([], rest)
      else if c = '\\' then
        match rest with
        | [] => none
        | e :: rest2 =>
          if e = '"' ∨ e = '\\' ∨ e = '/' then
            (parseStringBody fuel rest2).map (fun p => (e :: p.1, p.2))
          else if e = 'b' then
            (parseStringBody fuel rest2).map (fun p => (Char.ofNat 8 :: p.1, p.2))
          else if e = 'f' then
            (parseStringBody fuel rest2).map (fun p => (Char.ofNat 12 :: p.1, p.2))
          else if e = 'n' then
            (parseStringBody fuel rest2).map (fun p => ('\n' :: p.1, p.2))
          else if e = 'r' then
            (parseStringBody fuel rest2).map (fun p => ('\r' :: p.1, p.2))
          else if e = 't' then
            (parseStringBody fuel rest2).map (fun p => ('\t' :: p.1, p.2))
          else if e = 'u' then
            match parseHex4 rest2 with
            | none => none
            | some (n, rest3) =>
              if 0xD800 ≤ n ∧ n ≤ 0xDBFF then
                match rest3 with
                | '\\' :: 'u' :: rest4 =>
                  match parseHex4 rest4 with
                  | some (m, rest5) =>
                    if 0xDC00 ≤ m ∧ m ≤ 0xDFFF then
                      (parseStringBody fuel rest5).map (fun p =>
                        (Char.ofNat (0x10000 + (n - 0xD800) * 0x400 + (m - 0xDC00)) :: p.1, p.2))
                    else none
                  | none => none
                | _ => none
              else if 0xDC00 ≤ n ∧ n ≤ 0xDFFF then none
              else (parseStringBody fuel rest3).map (fun p => (Char.ofNat n :: p.1, p.2))
          else none
      else if c.toNat < 0x20 then none
      else (parseStringBody fuel rest).map (fun p => (c :: p.1, p.2))

mutual

/-- Parse one JSON value (fuelled; `jsonFromStr` supplies ample fuel). -/
def parseValue : Nat → Str → Option (Json × Str)
  | 0, _ => none
  | fuel + 1, s =>
    match skipWs s with
    | [] => none
    | c :: rest =>
      if c = 'n' then (stripLit "ull".data rest).map (fun r => (Json.null, r))
      else if c = 't' then (stripLit "rue".data rest).map (fun r => (Json.bool true, r))
      else if c = 'f' then (stripLit "alse".data rest).map (fun r => (Json.bool false, r))
      else if c = '"' then (parseStringBody (fuel + 1) rest).map (fun p => (Json.str p.1, p.2))
      else if c = '[' then
        match skipWs rest with
        | ']' :: r2 => some (Json.arr [], r2)
        | _ => parseElems fuel rest []
      else if c = '{' then
        match skipWs rest with
        | '}' :: r2 => some (Json.obj [], r2)
        | _ => parseMembers fuel rest []
      else if c = '-' ∨ c.isDigit then (parseNumber (c :: rest)).map (fun r => (Json.num, r))
      else none

/-- Parse the comma-separated elements of a non-empty JSON array. -/
def parseElems : Nat → Str → List Json → Option (Json × Str)
  | 0, _, _ => none
  | fuel + 1, s, acc =>
    match parseValue fuel s with
    | none => none
    | some (v, rest) =>
      match skipWs rest with
      | ',' :: r2 => parseElems fuel r2 (acc ++ [v])
      | ']' :: r2 => some (Json.arr (acc ++ [v]), r2)
      | _ => none

/-- Parse the comma-separated members of a non-empty JSON object. -/
def parseMembers : Nat → Str → List (Str × Json) → Option (Json × Str)
  | 0, _, _ => none
  | fuel + 1, s, acc =>
    match skipWs s with
    | '"' :: rest =>
      match parseStringBody (fuel + 1) rest with
      | none => none
      | some (key, r2) =>
        match skipWs r2 with
        | ':' :: r3 =>
          match parseValue fuel r3 with
          | none => none
          | some (v, r4) =>
            match skipWs r4 with
            | ',' :: r5 => parseMembers fuel r5 (acc ++ [(key, v)])
            | '}' :: r5 => some (Json.obj (acc ++ [(key, v)]), r5)
            | _ => none
        | _ => none
    | _ => none

end

/-- Fuel that is ample for any input of this length. -/
def jsonFuel (s : Str) : Nat := 4 * s.length + 16

/-- Model of `serde_json::from_str`: parse a complete JSON document,
allowing only trailing whitespace. -/
def jsonFromStr (s : Str) : Option Json :=
  match parseValue (jsonFuel s) s with
  | some (v, rest) => if skipWs rest = [] then some v else none
  | none => none

/-- Deserialize a JSON value as a Rust `String`. -/
def asStr : Json → Option Str
  | Json.str s => some s
  | _ => none

/-- Deserialize a JSON value as a Rust `Vec<String>`. -/
def asStrList : Json → Option (List Str)
  | Json.arr xs => xs.mapM asStr
  | _ => none

/-- Model of `serde_json::from_str::<Vec<String>>`. -/
def parseStringArray (s : Str) : Option (List Str) :=
  (jsonFromStr s).bind asStrList

/-! ## Reader decision parsing (`src/agent/reader.rs`) -/

/-- The `ReaderOutput` struct the Reader deserializes model output into. -/
structure ReaderOutput where
  decision : Str
  follow_up_queries : Option (List Str)

/-- Number of occurrences of a field name in a JSON object. -/
def countKey (fields : List (Str × Json)) (k : Str) : Nat :=
  (fields.filter (fun f => f.1 = k)).length

/-- First value bound to a field name in a JSON object. -/
def findKey (fields : List (Str × Json)) (k : Str) : Option Json :=
  (fields.find? (fun f => f.1 = k)).map (fun f => f.2)

/-- The derived `Deserialize` for `ReaderOutput`: requires an object with a
string `decision` field occurring exactly once; `follow_up_queries` may be
absent or `null` (both give `none`) or an array of strings, and may occur at
most once; unknown fields are ignored. -/
def readerOutputOfJson : Json → Option ReaderOutput
  | Json.obj fields =>
    if countKey fields "decision".data = 1 ∧ countKey fields "follow_up_queries".data ≤ 1 then
      match findKey fields "decision".data with
      | some v =>
        (asStr v).bind fun d =>
          match findKey fields "follow_up_queries".data with
          | none => some ⟨d, none⟩
          | some Json.null => some ⟨d, none⟩
          | some v2 => (asStrList v2).map (fun qs => ⟨d, some qs⟩)
      | none => none
    else none
  | _ => none

/-- Model of `serde_json::from_str::<ReaderOutput>`. -/
def readerOutputFromStr (s : Str) : Option ReaderOutput :=
  (jsonFromStr s).bind readerOutputOfJson

/-- The Reader's two-variant decision. -/
inductive ReaderDecision where
  | Continue (follow_up_queries : List Str) : ReaderDecision
  | Synthesize : ReaderDecision
deriving DecidableEq, Repr

/-- Byte index of the first occurrence of an ASCII character (both
delimiters searched for by the program are ASCII, so for the slices the
program takes, character indices and byte indices coincide). -/
def firstIdx (s : Str) (c : Char) : Option Nat :=
  s.findIdx? (fun d => d = c)

/-- Byte index of the last occurrence of an ASCII character
(Rust's `str::rfind`). -/
def lastIdx (s : Str) (c : Char) : Option Nat :=
  (s.reverse.findIdx? (fun d => d = c)).map (fun i => s.length - 1 - i)

/-- The half-open slice `s[start..stop]`. -/
def sliceCh (s : Str) (start stop : Nat) : Str :=
  (s.drop start).take (stop - start)

/-- The substring `text[start..=end]` between the first `'\x7b'` and the last
`'\x7d'`, as `parse_decision` computes it.  When only one delimiter is found
the whole text is used.  When the last `'\x7d'` sits more than one position
before the first `'\x7b'`, the Rust slice `&text[start..=end]` has
`start > end + 1` and panics; that panic is modelled as `none`. -/
def extractBraced (text : Str) : Option Str :=
  match firstIdx text '{' with
  | none => some text
  | some s =>
    match lastIdx text '}' with
    | none => some text
    | some e => if s ≤ e + 1 then some (sliceCh text s (e + 1)) else none

/-- `parse_decision` of `src/agent/reader.rs`: extract the brace-delimited
substring, deserialize a `ReaderOutput`, and honour `continue` only with a
present non-empty `follow_up_queries`; everything else is `Synthesize`.
`none` models the panic of the slice expression. -/
def parse_decision (text : Str) : Option ReaderDecision :=
  (extractBraced text).map fun js =>
    match readerOutputFromStr js with
    | some o =>
      if o.decision = "continue".data then
        match o.follow_up_queries with
        | some qs => if qs ≠ [] then ReaderDecision.Continue qs else ReaderDecision.Synthesize
        | none => ReaderDecision.Synthesize
      else ReaderDecision.Synthesize
    | none => ReaderDecision.Synthesize

/-! ## Truncation and the Reader prompt (`src/agent/reader.rs`) -/

/-- The longest character-prefix whose UTF-8 byte length is at most
`maxB`: this is exactly the byte slice `&s[..s.floor_char_boundary(maxB)]`,
since UTF-8 character boundaries are the partial sums of the characters'
byte sizes. -/
def takeBytes (maxB : Nat) : Str → Str
  | [] => []
  | c :: rest => if c.utf8Size ≤ maxB then c :: takeBytes (maxB - c.utf8Size) rest else []

/-- `truncate` of `src/agent/reader.rs`: the whole text when its byte
length is within the budget, otherwise the slice up to
`floor_char_boundary(maxB)`. -/
def truncate (s : Str) (maxB : Nat) : Str :=
  if utf8Len s ≤ maxB then s else takeBytes maxB s

/-- The decimal rendering of a number, as Rust's `format!` writes it. -/
def natStr (n : Nat) : Str := (toString n).data

/-- Join texts with a separator (Rust's `join`). -/
def joinWith (sep : Str) : List Str → Str
  | [] => []
  | [x] => x
  | x :: y :: rest => x ++ sep ++ joinWith sep (y :: rest)

/-- Label each entry `[{tag} {i+1}] {entry}` and join with newlines, as the
Reader's context lines are formatted. -/
def labelJoin (tag : Str) (entries : List Str) : Str :=
  joinWith "\n".data
    (entries.enum.map (fun p => ('[' :: tag) ++ (' ' :: natStr (p.1 + 1)) ++ (']' :: ' ' :: p.2)))

/-- The entries the Reader's context section displays: the five
most-recently-appended when more than five exist, all of them otherwise —
each truncated to a 200-byte budget. -/
def shownEntries (ctx : List Str) : List Str :=
  if ctx.length > 5 then ((ctx.reverse.take 5).reverse).map (fun p => truncate p 200)
  else ctx.map (fun p => truncate p 200)

/-- The accumulated-context summary of `Reader::read`: with more than five
entries, the total count followed by the latest five; otherwise all
entries. -/
def contextSummary (ctx : List Str) : Str :=
  if ctx.length > 5 then
    natStr ctx.length ++ " passages accumulated so far. Latest 5:\n".data ++
      labelJoin "Context".data (shownEntries ctx)
  else labelJoin "Context".data (shownEntries ctx)

/-- The Reader's user message: question, new passages labelled
positionally, and the summarized accumulated context. -/
def buildReaderPrompt (question : Str) (newPassages : List Str) (ctx : List Str) : Str :=
  "Question: ".data ++ question ++ "\n\nNew Passages:\n".data ++
    joinWith "\n\n".data
      (newPassages.enum.map (fun p => ('[' :: "Passage ".data) ++ natStr (p.1 + 1) ++ (']' :: ' ' :: p.2))) ++
    "\n\nAccumulated Context:\n".data ++ contextSummary ctx

/-- The Synthesizer's user message (`src/agent/synthesizer.rs`): question
and every accumulated passage labelled positionally, untruncated. -/
def buildSynthPrompt (question : Str) (ctx : List Str) : Str :=
  "Question: ".data ++ question ++ "\n\nResearch Context:\n".data ++
    joinWith "\n\n".data
      (ctx.enum.map (fun p => ('[' :: "Source ".data) ++ natStr (p.1 + 1) ++ (']' :: ' ' :: p.2)))

/-! ## Planner query parsing (`src/agent/planner.rs`) -/

/-- `Planner::plan`'s parsing of the model response: parse the whole text
as a JSON array of strings; failing that, parse the substring between the
first `'['` and the last `']'`; failing that, fall back to the question
itself.  `none` models the panic of the slice `&text[start..=end]` when the
last `']'` sits more than one position before the first `'['`. -/
def planQueries (text : Str) (question : Str) : Option (List Str) :=
  match parseStringArray text with
  | some qs => some qs
  | none =>
    match firstIdx text '[' with
    | none => some [question]
    | some s =>
      match lastIdx text ']' with
      | none => some [question]
      | some e =>
        if s ≤ e + 1 then
          match parseStringArray (sliceCh text s (e + 1)) with
          | some qs => some qs
          | none => some [question]
        else none

/-- The planner response texts on which the slice `&text[start..=end]` of
the fallback panics: the last `']'` sits more than one position before the
first `'['`. -/
def planPanics (text : Str) : Bool :=
  match firstIdx text '[', lastIdx text ']' with
  | some s, some e => decide (e + 1 < s)
  | _, _ => false

/-- Step (2) of the planner's fallback chain in isolation: the substring
between the first `'['` and the last `']'` parsed as a JSON array of
strings (`none` when a delimiter is missing, the slice is invalid, or the
substring does not parse). -/
def bracketParse (text : Str) : Option (List Str) :=
  match firstIdx text '[', lastIdx text ']' with
  | some s, some e =>
    if s ≤ e + 1 then parseStringArray (sliceCh text s (e + 1)) else none
  | _, _ => none

/-! ## Telemetry records (`src/instrumentation/logger.rs`) and the
hop loop (`src/agent/mod.rs`)

`u32` counters are natural numbers; additions the source performs in `u32`
carry an explicit `% 2 ^ 32` (Rust release builds wrap on overflow).
Wall-clock durations (`Instant::elapsed`) are not modelled and recorded as
`0`; the fresh uuid and timestamp of a run are recorded as `[]`. -/

/-- The `u32` modulus. -/
def u32W : Nat := 4294967296

/-- `Iterator::sum::<u32>`: a left fold with wrapping addition. -/
def u32sum (xs : List Nat) : Nat := xs.foldl (fun a x => (a + x) % u32W) 0

/-- The usage-carrying LLM completion result (`LlmResponse`). -/
structure LlmResponse where
  text : Str
  input_tokens : Nat
  output_tokens : Nat
  cost : ℚ
deriving DecidableEq, Repr

/-- One per-hop telemetry row (`HopLog`). -/
structure HopLog where
  hop_number : Nat
  queries : List Str
  embedding_latency_ms : Nat
  search_latency_ms : Nat
  num_results : Nat
  tokens_in_passages : Nat
  llm_latency_ms : Nat
  llm_input_tokens : Nat
  llm_output_tokens : Nat
  llm_cost : ℚ
  decision : Str
  total_hop_latency_ms : Nat
deriving DecidableEq, Repr

/-- The terminal per-run record (`RunLog`). -/
structure RunLog where
  id : Str
  timestamp : Str
  question : Str
  hops : List HopLog
  synthesis_latency_ms : Nat
  synthesis_input_tokens : Nat
  synthesis_output_tokens : Nat
  plan_latency_ms : Nat
  plan_input_tokens : Nat
  plan_output_tokens : Nat
  total_latency_ms : Nat
  total_llm_input_tokens : Nat
  total_llm_output_tokens : Nat
  total_cost : ℚ
  final_answer : Str
deriving DecidableEq, Repr

/-- The environment of one run: the configured bounds and deterministic
oracles for every external call, keyed by the exact request each call site
sends (query text and limit for Qdrant, the user message for each LLM call
site; the planner is called once, on the question). -/
structure Env where
  maxHops : Nat
  topK : Nat
  llmPlan : Except Err LlmResponse
  search : Str → Nat → Except Err (List Str)
  llmReader : Str → Except Err LlmResponse
  llmSynth : Str → Except Err LlmResponse
  writeResult : Except Err Unit

/-- The `HopLog` row `Agent::ask` records for one hop. -/
def mkHopLog (hopn : Nat) (pending : List Str) (passages : List Str)
    (resp : LlmResponse) (dec : ReaderDecision) : HopLog :=
  { hop_number := hopn % u32W
    queries := pending
    embedding_latency_ms := 0
    search_latency_ms := 0
    num_results := passages.length % u32W
    tokens_in_passages := u32sum (passages.map (fun t => utf8Len t / 4 % u32W))
    llm_latency_ms := 0
    llm_input_tokens := resp.input_tokens
    llm_output_tokens := resp.output_tokens
    llm_cost := resp.cost
    decision :=
      match dec with
      | ReaderDecision.Continue qs => "continue(".data ++ natStr qs.length ++ ")".data
      | ReaderDecision.Synthesize => "synthesize".data
    total_hop_latency_ms := 0 }

/-- The `for hop_number in 0..max_hops` loop of `Agent::ask`, with the
remaining iteration budget made explicit.  Besides the hop rows and the
final accumulated context it returns the trace of the accumulated context
after each executed hop.  `none` models a panic inside `parse_decision`. -/
def hopLoop (env : Env) (question : Str) :
    Nat → Nat → List Str → List Str → List HopLog → List (List Str) →
    Option (Except Err (List HopLog × List Str × List (List Str)))
  | _, 0, _, ctx, hops, tr => some (Except.ok (hops, ctx, tr))
  | hopn, r + 1, pending, ctx, hops, tr =>
    if pending = [] then some (Except.ok (hops, ctx, tr))
    else
      match env.search (joinWith " ".data pending) env.topK with
      | Except.error e => some (Except.error e)
      | Except.ok passages =>
        let ctx2 := ctx ++ passages
        match env.llmReader (buildReaderPrompt question passages ctx2) with
        | Except.error e => some (Except.error e)
        | Except.ok resp =>
          match parse_decision resp.text with
          | none => none
          | some dec =>
            let hl := mkHopLog hopn pending passages resp dec
            match dec with
            | ReaderDecision.Continue qs =>
              hopLoop env question (hopn + 1) r qs ctx2 (hops ++ [hl]) (tr ++ [ctx2])
            | ReaderDecision.Synthesize =>
              some (Except.ok (hops ++ [hl], ctx2, tr ++ [ctx2]))

/-- The per-run data that is observable beyond the `RunLog` itself: the
plan and synthesis usages, the accumulated-context trace and the final
accumulated context the Synthesizer was invoked over. -/
structure RunTrace where
  planResp : LlmResponse
  synthResp : LlmResponse
  ctxTrace : List (List Str)
  finalCtx : List Str
deriving DecidableEq, Repr

/-- The `RunLog` record `Agent::ask` assembles after synthesis.  The `u32`
totals mirror the source's wrapping additions
`plan + synth + hops.sum::<u32>()`. -/
def mkRunLog (question : Str) (planResp synthResp : LlmResponse) (hops : List HopLog) : RunLog :=
  { id := []
    timestamp := []
    question := question
    hops := hops
    synthesis_latency_ms := 0
    synthesis_input_tokens := synthResp.input_tokens
    synthesis_output_tokens := synthResp.output_tokens
    plan_latency_ms := 0
    plan_input_tokens := planResp.input_tokens
    plan_output_tokens := planResp.output_tokens
    total_latency_ms := 0
    total_llm_input_tokens :=
      ((planResp.input_tokens + synthResp.input_tokens) % u32W +
        u32sum (hops.map (fun h => h.llm_input_tokens))) % u32W
    total_llm_output_tokens :=
      ((planResp.output_tokens + synthResp.output_tokens) % u32W +
        u32sum (hops.map (fun h => h.llm_output_tokens))) % u32W
    total_cost := planResp.cost + synthResp.cost + (hops.map (fun h => h.llm_cost)).sum
    final_answer := synthResp.text }

/-- `Agent::ask` up to (but not including) the telemetry write: plan,
iterate hops, synthesize, assemble the `RunLog`.  `none` models a panic in
the planner's or the reader's parsing. -/
def askCore (env : Env) (question : Str) : Option (Except Err (RunLog × RunTrace)) :=
  match env.llmPlan with
  | Except.error e => some (Except.error e)
  | Except.ok planResp =>
    match planQueries planResp.text question with
    | none => none
    | some queries =>
      match hopLoop env question 0 env.maxHops queries [] [] [] with
      | none => none
      | some (Except.error e) => some (Except.error e)
      | some (Except.ok (hops, ctx, tr)) =>
        match env.llmSynth (buildSynthPrompt question ctx) with
        | Except.error e => some (Except.error e)
        | Except.ok synthResp =>
          some (Except.ok (mkRunLog question planResp synthResp hops, ⟨planResp, synthResp, tr, ctx⟩))

/-- `Agent::ask` including the telemetry write: the second component is
the list of records appended to the store (a failed write persists
nothing).  `none` models a panic. -/
def ask (env : Env) (question : Str) : Option (Except Err RunLog) × List RunLog :=
  match askCore env question with
  | none => (none, [])
  | some (Except.error e) => (some (Except.error e), [])
  | some (Except.ok (run, _)) =>
    match env.writeResult with
    | Except.error e => (some (Except.error e), [])
    | Except.ok _ => (some (Except.ok run), [run])

/-- Observation of a run outcome: the accumulated-context trace of a
successful run. -/
def traceOf (o : Option (Except Err (RunLog × RunTrace))) : Option (List (List Str)) :=
  match o with
  | some (Except.ok (_, tr)) => some tr.ctxTrace
  | _ => none

/-- Observation of a run outcome: hop count, final accumulated context and
final answer of a successful run. -/
def runShape (o : Option (Except Err (RunLog × RunTrace))) : Option (Nat × List Str × Str) :=
  match o with
  | some (Except.ok (run, tr)) => some (run.hops.length, tr.finalCtx, run.final_answer)
  | _ => none

/-- Observation of a run outcome: the recorded input-token total next to
the mathematical (non-wrapping) sum of its per-step components. -/
def runTotalsView (o : Option (Except Err (RunLog × RunTrace))) : Option (Nat × Nat) :=
  match o with
  | some (Except.ok (run, _)) =>
    some (run.total_llm_input_tokens,
      run.plan_input_tokens + run.synthesis_input_tokens +
        (run.hops.map (fun h => h.llm_input_tokens)).sum)
  | _ => none

/-- The accumulated-context trace grows from `c` by appending, at each
step, exactly the passage list some retriever call returned. -/
def ctxChain (env : Env) : List Str → List (List Str) → Prop
  | _, [] => True
  | c, c2 :: rest =>
    (∃ qt ps, env.search qt env.topK = Except.ok ps ∧ c2 = c ++ ps) ∧ ctxChain env c2 rest

/-! ## The LLM client extraction step (`src/llm/client.rs`) -/

/-- `ChatChoiceMessage`: the possibly-null message content. -/
structure ChatChoiceMessage where
  content : Option Str
deriving DecidableEq, Repr

/-- `ChatChoice`. -/
structure ChatChoice where
  message : ChatChoiceMessage
deriving DecidableEq, Repr

/-- `ChatUsage`: token counts and the optional cost field. -/
structure ChatUsage where
  prompt_tokens : Nat
  completion_tokens : Nat
  cost : Option ℚ
deriving DecidableEq, Repr

/-- The parsed OpenAI-compatible envelope (`ChatCompletionResponse`). -/
structure ChatCompletionResponse where
  choices : List ChatChoice
  usage : ChatUsage
deriving DecidableEq, Repr

/-- The response handling of `LlmClient::complete`, given the HTTP status
and the envelope-parse outcome: non-success statuses and unparsable bodies
fail; otherwise the first choice's content (or `""`) and the usage fields
are returned. -/
def completeResult (status : Nat) (parsed : Option ChatCompletionResponse) :
    Except Err LlmResponse :=
  if ¬ (200 ≤ status ∧ status ≤ 299) then
    Except.error ("LLM API error (" ++ toString status ++ ")")
  else
    match parsed with
    | none => Except.error "Failed to parse LLM API response"
    | some r =>
      Except.ok
        { text :=
            match r.choices with
            | [] => []
            | c :: _ => c.message.content.getD []
          input_tokens := r.usage.prompt_tokens
          output_tokens := r.usage.completion_tokens
          cost := r.usage.cost.getD 0 }

/-! ## Batch evaluation (`src/main.rs`, `Eval` subcommand) -/

/-- The per-question loop of `Eval`: successful runs are collected in
order, failures are counted; every question is processed. -/
def evalLoop (outcomes : List (Except Err RunLog)) : List RunLog × Nat :=
  outcomes.foldl
    (fun acc o =>
      match o with
      | Except.ok r => (acc.1 ++ [r], acc.2)
      | Except.error _ => (acc.1, acc.2 + 1))
    ([], 0)

/-- `RunLog::total_tokens`: a `u32` addition. -/
def total_tokens (r : RunLog) : Nat :=
  (r.total_llm_input_tokens + r.total_llm_output_tokens) % u32W

/-- Modelled from the spec: `RunLog::estimated_cost` is called by
`main.rs` but not defined under `src/`.  The spec's aggregate summary sums
the cost of the successful runs, and a run's recorded monetary cost is its
`total_cost` (which `RunLog::cost` returns); `estimated_cost` is therefore
modelled as that recorded total cost. -/
def estimated_cost (r : RunLog) : ℚ := r.total_cost

/-- The fields of the printed `=== Evaluation Summary ===`. -/
structure EvalSummary where
  questions : Nat
  errors : Nat
  avg_hops : ℚ
  avg_latency_ms : ℚ
  total_tokens : Nat
  total_cost : ℚ
deriving DecidableEq, Repr

/-- The aggregate summary `Eval` prints over the successful runs; nothing
is printed when no run succeeded. -/
def evalSummary (runs : List RunLog) (errors : Nat) : Option EvalSummary :=
  if runs = [] then none
  else
    some
      { questions := runs.length
        errors := errors
        avg_hops := (((runs.map (fun r => r.hops.length)).sum : Nat) : ℚ) / ((runs.length : Nat) : ℚ)
        avg_latency_ms :=
          (((runs.map (fun r => r.total_latency_ms)).sum : Nat) : ℚ) / ((runs.length : Nat) : ℚ)
        total_tokens := u32sum (runs.map total_tokens)
        total_cost := (runs.map estimated_cost).sum }

/-! ## Witness environments and concrete data -/

/-- Extract a successful run from `Except.ok`. -/
def okRun : Except Err RunLog → Option RunLog
  | Except.ok r => some r
  | Except.error _ => none

/-- Is this outcome a failure? -/
def isErrRun : Except Err RunLog → Bool
  | Except.ok _ => false
  | Except.error _ => true

/-- A six-entry context for the C8 witness. -/
def ctx8 : List Str := ["a".data, "b".data, "c".data, "d".data, "e".data, "f".data]

/-- The C2 witness environment: the planner call fails. -/
def envC2 : Env :=
  { maxHops := 1
    topK := 1
    llmPlan := Except.error "boom"
    search := fun _ _ => Except.ok []
    llmReader := fun _ => Except.error "boom"
    llmSynth := fun _ => Except.error "boom"
    writeResult := Except.ok () }

/-- C3: counterexample.  The claim says the recorded input-token total
equals the exact sum of the per-step counters; the source adds `u32`
values, which wrap.  In a zero-hop run whose plan and synthesis calls each
report `2^31` input tokens the recorded total is `0` while the exact sum
is `2^32`. -/
def envC3 : Env :=
  { maxHops := 0
    topK := 1
    llmPlan := Except.ok
      { text := "[\"a\"]".data, input_tokens := 2147483648, output_tokens := 0, cost := 0 }
    search := fun _ _ => Except.ok []
    llmReader := fun _ =>
      Except.ok { text := [], input_tokens := 0, output_tokens := 0, cost := 0 }
    llmSynth := fun _ =>
      Except.ok { text := "ans".data, input_tokens := 2147483648, output_tokens := 0, cost := 0 }
    writeResult := Except.ok () }

/-- The C3 witness environment: a zero-hop run with small token counts. -/
def envC3w : Env :=
  { maxHops := 0
    topK := 1
    llmPlan := Except.ok
      { text := "[\"a\"]".data, input_tokens := 10, output_tokens := 5, cost := 1 }
    search := fun _ _ => Except.ok []
    llmReader := fun _ =>
      Except.ok { text := [], input_tokens := 0, output_tokens := 0, cost := 0 }
    llmSynth := fun _ =>
      Except.ok { text := "ans".data, input_tokens := 20, output_tokens := 9, cost := 5 }
    writeResult := Except.ok () }

/-- The run the C3 witness environment produces. -/
def runC3w : RunLog :=
  mkRunLog "q".data
    { text := "[\"a\"]".data, input_tokens := 10, output_tokens := 5, cost := 1 }
    { text := "ans".data, input_tokens := 20, output_tokens := 9, cost := 5 } []

/-- The trace the C3 witness environment produces. -/
def trC3w : RunTrace :=
  { planResp := { text := "[\"a\"]".data, input_tokens := 10, output_tokens := 5, cost := 1 }
    synthResp := { text := "ans".data, input_tokens := 20, output_tokens := 9, cost := 5 }
    ctxTrace := []
    finalCtx := [] }

/-- The C4 witness environment: `max_hops = 0`. -/
def envC4 : Env :=
  { maxHops := 0
    topK := 1
    llmPlan := Except.ok
      { text := "[\"a\"]".data, input_tokens := 1, output_tokens := 1, cost := 0 }
    search := fun _ _ => Except.ok []
    llmReader := fun _ =>
      Except.ok { text := [], input_tokens := 0, output_tokens := 0, cost := 0 }
    llmSynth := fun _ =>
      Except.ok { text := "ans".data, input_tokens := 1, output_tokens := 1, cost := 0 }
    writeResult := Except.ok () }

/-- The C7 witness environment: a two-hop run whose reader continues once
and then synthesizes. -/
def envC7 : Env :=
  { maxHops := 3
    topK := 2
    llmPlan := Except.ok
      { text := "[\"a\"]".data, input_tokens := 10, output_tokens := 5, cost := 1 }
    search := fun qt _ => if qt = "a".data then Except.ok ["p1".data] else Except.ok ["p2".data]
    llmReader := fun s =>
      if s = buildReaderPrompt "q".data ["p2".data] ["p1".data, "p2".data] then
        Except.ok
          { text := "\x7b\"decision\": \"synthesize\"\x7d".data
            input_tokens := 7, output_tokens := 3, cost := 2 }
      else
        Except.ok
          { text := "\x7b\"decision\": \"continue\", \"follow_up_queries\": [\"b\"]\x7d".data
            input_tokens := 6, output_tokens := 2, cost := 3 }
    llmSynth := fun _ =>
      Except.ok { text := "ans".data, input_tokens := 20, output_tokens := 9, cost := 5 }
    writeResult := Except.ok () }

/-- Successful runs for the C9 witness. -/
def rw1 : RunLog :=
  { id := [], timestamp := [], question := [], hops := []
    synthesis_latency_ms := 0, synthesis_input_tokens := 0, synthesis_output_tokens := 0
    plan_latency_ms := 0, plan_input_tokens := 0, plan_output_tokens := 0
    total_latency_ms := 4, total_llm_input_tokens := 10, total_llm_output_tokens := 2
    total_cost := 1, final_answer := [] }

/-- A one-hop successful run for the C9 witness. -/
def rw2 : RunLog :=
  { id := [], timestamp := [], question := []
    hops := [{ hop_number := 0, queries := [], embedding_latency_ms := 0
               search_latency_ms := 0, num_results := 0, tokens_in_passages := 0
               llm_latency_ms := 0, llm_input_tokens := 0, llm_output_tokens := 0
               llm_cost := 0, decision := "synthesize".data, total_hop_latency_ms := 0 }]
    synthesis_latency_ms := 0, synthesis_input_tokens := 0, synthesis_output_tokens := 0
    plan_latency_ms := 0, plan_input_tokens := 0, plan_output_tokens := 0
    total_latency_ms := 6, total_llm_input_tokens := 5, total_llm_output_tokens := 3
    total_cost := 2, final_answer := [] }

/-- The C9 witness outcome list: two successes around one failure. -/
def outsC9 : List (Except Err RunLog) := [Except.ok rw1, Except.error "net", Except.ok rw2]

/-! ## Helper lemmas -/

theorem u32sum_aux (xs : List Nat) (a : Nat) :
    xs.foldl (fun b x => (b + x) % u32W) (a % u32W) = (a + xs.sum) % u32W := by
  induction xs generalizing a with
  | nil => simp
  | cons x xs ih =>
    simp only [List.foldl_cons, List.sum_cons]
    rw [Nat.mod_add_mod, ih (a + x), Nat.add_assoc]

/-- A wrapping `u32` sum is the plain sum reduced mod `2 ^ 32`. -/
theorem u32sum_eq (xs : List Nat) : u32sum xs = xs.sum % u32W := by
  have h := u32sum_aux xs 0
  simpa [u32sum] using h

/-- `takeBytes` returns a prefix of its input. -/
theorem takeBytes_append (maxB : Nat) (s : Str) : ∃ t, s = takeBytes maxB s ++ t := by
  induction s generalizing maxB with
  | nil => exact ⟨[], rfl⟩
  | cons c rest ih =>
    unfold takeBytes
    by_cases h : c.utf8Size ≤ maxB
    · rw [if_pos h]
      obtain ⟨t, ht⟩ := ih (maxB - c.utf8Size)
      exact ⟨t, by rw [List.cons_append, ← ht]⟩
    · rw [if_neg h]
      exact ⟨c :: rest, rfl⟩

theorem utf8Len_takeBytes_le (maxB : Nat) (s : Str) : utf8Len (takeBytes maxB s) ≤ maxB := by
  induction s generalizing maxB with
  | nil => simp [takeBytes, utf8Len]
  | cons c rest ih =>
    unfold takeBytes
    by_cases h : c.utf8Size ≤ maxB
    · rw [if_pos h]
      have h2 := ih (maxB - c.utf8Size)
      simp only [utf8Len, List.map_cons, List.sum_cons] at h2 ⊢
      omega
    · rw [if_neg h]
      simp [utf8Len]

/-- Every character occupies at least one byte. -/
theorem length_le_utf8Len (s : Str) : s.length ≤ utf8Len s := by
  induction s with
  | nil => simp [utf8Len]
  | cons c rest ih =>
    have h := Char.utf8Size_pos c
    simp only [utf8Len, List.map_cons, List.sum_cons, List.length_cons] at ih ⊢
    omega

/-- The truncated text fits the byte budget. -/
theorem truncate_utf8Len_le (s : Str) (n : Nat) : utf8Len (truncate s n) ≤ n := by
  unfold truncate
  by_cases h : utf8Len s ≤ n
  · rw [if_pos h]; exact h
  · rw [if_neg h]; exact utf8Len_takeBytes_le n s

/-- The truncated text is a character-prefix of the original (no
character is ever split). -/
theorem truncate_append (s : Str) (n : Nat) : ∃ t, s = truncate s n ++ t := by
  unfold truncate
  by_cases h : utf8Len s ≤ n
  · rw [if_pos h]; exact ⟨[], by simp⟩
  · rw [if_neg h]; exact takeBytes_append n s

/-- The truncated text has at most `n` characters. -/
theorem truncate_length_le (s : Str) (n : Nat) : (truncate s n).length ≤ n :=
  le_trans (length_le_utf8Len _) (truncate_utf8Len_le s n)

/-- `rev().take(5).rev()` is the suffix of the five most recent entries. -/
theorem shownEntries_gt5 (ctx : List Str) (h : ctx.length > 5) :
    shownEntries ctx = (ctx.drop (ctx.length - 5)).map (fun p => truncate p 200) := by
  unfold shownEntries
  rw [if_pos h, List.take_reverse, List.reverse_reverse]

/-- Each loop iteration records at most one hop row. -/
theorem hopLoop_length (env : Env) (question : Str) :
    ∀ (r hopn : Nat) (pending ctx : List Str) (hops : List HopLog) (tr : List (List Str))
      (hops2 : List HopLog) (ctx2 : List Str) (tr2 : List (List Str)),
      hopLoop env question hopn r pending ctx hops tr = some (Except.ok (hops2, ctx2, tr2)) →
      hops2.length ≤ hops.length + r := by
  intro r
  induction r with
  | zero =>
    intro hopn pending ctx hops tr hops2 ctx2 tr2 h
    simp only [hopLoop, Option.some.injEq, Except.ok.injEq, Prod.mk.injEq] at h
    obtain ⟨h1, -, -⟩ := h
    simp [← h1]
  | succ r ih =>
    intro hopn pending ctx hops tr hops2 ctx2 tr2 h
    simp only [hopLoop] at h
    split at h
    · simp only [Option.some.injEq, Except.ok.injEq, Prod.mk.injEq] at h
      obtain ⟨h1, -, -⟩ := h
      rw [← h1]
      omega
    · split at h
      · exact absurd h (by simp)
      · split at h
        · exact absurd h (by simp)
        · split at h
          · exact absurd h (by simp)
          · split at h
            · have h2 := ih _ _ _ _ _ _ _ _ h
              simp only [List.length_append, List.length_cons, List.length_nil] at h2
              omega
            · simp only [Option.some.injEq, Except.ok.injEq, Prod.mk.injEq] at h
              obtain ⟨h1, -, -⟩ := h
              rw [← h1]
              simp only [List.length_append, List.length_cons, List.length_nil]
              omega

/-- A successful loop run extends the incoming trace by a chain of
append-extensions, each appending the passages of one retriever call. -/
theorem hopLoop_chain (env : Env) (question : Str) :
    ∀ (r hopn : Nat) (pending ctx : List Str) (hops : List HopLog) (tr0 : List (List Str))
      (hops2 : List HopLog) (ctx2 : List Str) (tr2 : List (List Str)),
      hopLoop env question hopn r pending ctx hops tr0 = some (Except.ok (hops2, ctx2, tr2)) →
      ∃ d, tr2 = tr0 ++ d ∧ ctxChain env ctx d := by
  intro r
  induction r with
  | zero =>
    intro hopn pending ctx hops tr0 hops2 ctx2 tr2 h
    simp only [hopLoop, Option.some.injEq, Except.ok.injEq, Prod.mk.injEq] at h
    obtain ⟨-, -, h3⟩ := h
    exact ⟨[], by simp [← h3], trivial⟩
  | succ r ih =>
    intro hopn pending ctx hops tr0 hops2 ctx2 tr2 h
    simp only [hopLoop] at h
    split at h
    · simp only [Option.some.injEq, Except.ok.injEq, Prod.mk.injEq] at h
      obtain ⟨-, -, h3⟩ := h
      exact ⟨[], by simp [← h3], trivial⟩
    · rename_i hpend
      split at h
      · exact absurd h (by simp)
      · rename_i passages hsearch
        split at h
        · exact absurd h (by simp)
        · split at h
          · exact absurd h (by simp)
          · split at h
            · obtain ⟨d2, hd2, hc2⟩ := ih _ _ _ _ _ _ _ _ h
              refine ⟨(ctx ++ passages) :: d2, ?_, ?_, hc2⟩
              · rw [hd2]; simp
              · exact ⟨joinWith " ".data pending, passages, hsearch, rfl⟩
            · simp only [Option.some.injEq, Except.ok.injEq, Prod.mk.injEq] at h
              obtain ⟨-, -, h3⟩ := h
              refine ⟨[ctx ++ passages], by simp [← h3], ?_, trivial⟩
              exact ⟨joinWith " ".data pending, passages, hsearch, rfl⟩

/-- Along a context chain, each entry extends the previous one. -/
theorem ctxChain_getD (env : Env) :
    ∀ (L : List (List Str)) (c : List Str), ctxChain env c L →
      ∀ i, i + 1 < L.length →
        ∃ ps, L.getD (i + 1) [] = L.getD i [] ++ ps := by
  intro L
  induction L with
  | nil => intro c _ i hi; simp at hi
  | cons c2 rest ih =>
    intro c h i hi
    obtain ⟨-, h2⟩ := h
    cases i with
    | zero =>
      cases rest with
      | nil => simp at hi
      | cons c3 rest2 =>
        obtain ⟨⟨qt, ps, -, he⟩, -⟩ := h2
        exact ⟨ps, by simpa using he⟩
    | succ j =>
      have h3 := ih c2 h2 j (by simpa using hi)
      simpa using h3

/-- Destructuring of a successful `askCore` run into its pipeline steps. -/
theorem askCore_ok (env : Env) (question : Str) (run : RunLog) (tr : RunTrace)
    (h : askCore env question = some (Except.ok (run, tr))) :
    env.llmPlan = Except.ok tr.planResp ∧
    (∃ queries, planQueries tr.planResp.text question = some queries ∧
      hopLoop env question 0 env.maxHops queries [] [] [] =
        some (Except.ok (run.hops, tr.finalCtx, tr.ctxTrace))) ∧
    env.llmSynth (buildSynthPrompt question tr.finalCtx) = Except.ok tr.synthResp ∧
    run = mkRunLog question tr.planResp tr.synthResp run.hops := by
  unfold askCore at h
  split at h
  · exact absurd h (by simp)
  · rename_i planResp hp
    split at h
    · exact absurd h (by simp)
    · rename_i queries hq
      split at h
      · exact absurd h (by simp)
      · exact absurd h (by simp)
      · rename_i hops ctx trc hl
        split at h
        · exact absurd h (by simp)
        · rename_i synthResp hs
          simp only [Option.some.injEq, Except.ok.injEq, Prod.mk.injEq] at h
          obtain ⟨hrun, htr⟩ := h
          subst htr
          refine ⟨hp, ⟨queries, hq, ?_⟩, hs, ?_⟩
          · rw [← hrun]; exact hl
          · rw [← hrun]; rfl

theorem evalLoop_aux (outcomes : List (Except Err RunLog)) :
    ∀ (rs : List RunLog) (n : Nat),
      outcomes.foldl
        (fun acc o =>
          match o with
          | Except.ok r => (acc.1 ++ [r], acc.2)
          | Except.error _ => (acc.1, acc.2 + 1)) (rs, n) =
      (rs ++ outcomes.filterMap okRun, n + (outcomes.filter isErrRun).length) := by
  induction outcomes with
  | nil => intro rs n; simp
  | cons o os ih =>
    intro rs n
    cases o with
    | ok r =>
      simp only [List.foldl_cons]
      rw [ih]
      simp [okRun, isErrRun, List.filterMap_cons, List.filter_cons]
    | error e =>
      simp only [List.foldl_cons]
      rw [ih]
      simp [okRun, isErrRun, List.filterMap_cons, List.filter_cons, Prod.mk.injEq]
      omega

/-- Successes and failures of a batch partition the outcome list. -/
theorem okRun_count (outcomes : List (Except Err RunLog)) :
    (outcomes.filterMap okRun).length + (outcomes.filter isErrRun).length = outcomes.length := by
  induction outcomes with
  | nil => simp
  | cons o os ih =>
    cases o <;>
      simp [okRun, isErrRun, List.filterMap_cons, List.filter_cons, List.length_cons] <;>
      omega

/-! ## Claims -/

/-- C1: code-bug evidence.  The claim says `parse_decision` returns
`Synthesize` on every text that does not carry a well-formed `continue`
decision.  On the Reader response text `"\x7dx\x7b"` (a closing brace, a
character, an opening brace) the first `'\x7b'` is at byte 2 and the last
`'\x7d'` at byte 0, so the Rust slice `&text[2..=0]` panics instead:
the model of `parse_decision` has no result there. -/
theorem reader_parse_decision_panics_on_inverted_braces :
    parse_decision "\x7dx\x7b".data = none := by decide

/-- C6: a Planner model response whose text is exactly a valid JSON array
of 1 to 4 strings is returned by `plan()` unmodified and in order. -/
theorem plan_valid_array_passthrough (text question : Str) (qs : List Str)
    (h : parseStringArray text = some qs) (h1 : 1 ≤ qs.length) (h4 : qs.length ≤ 4) :
    planQueries text question = some qs := by
  unfold planQueries
  rw [h]

/-- C6 witness: a concrete two-element JSON array passes through unmodified. -/
theorem plan_valid_array_passthrough_witness :
    parseStringArray "[\"a\", \"b\"]".data = some ["a".data, "b".data] ∧
    planQueries "[\"a\", \"b\"]".data "q".data = some ["a".data, "b".data] :=
  ⟨by decide, plan_valid_array_passthrough _ _ _ (by decide) (by decide) (by decide)⟩

/-- C5: counterexample.  The claim says every malformed Planner response
yields a non-empty query list.  The response text `"x[]y"` is malformed
(it does not parse in full as a JSON array of strings), yet the fallback
parses the substring `"[]"` between the first `'['` and the last `']'`
into the empty array, so `plan()` returns the empty list. -/
theorem plan_fallback_empty_cex :
    parseStringArray "x[]y".data = none ∧
    planQueries "x[]y".data "q".data = some [] :=
  ⟨by decide, by decide⟩

/-- C5 (amended): for every malformed Planner response on which the
fallback slice does not panic, `plan()` returns a query list without any
parse error — the bracket-substring parse when it succeeds (which may be
empty exactly when that substring is the empty JSON array), and otherwise
the single-element list containing the question verbatim. -/
theorem plan_malformed_fallback (text question : Str)
    (hmal : parseStringArray text = none)
    (hnp : planPanics text = false) :
    planQueries text question = some ((bracketParse text).getD [question]) ∧
    ((bracketParse text).getD [question] = [] → bracketParse text = some []) := by
  unfold planQueries bracketParse
  rw [hmal]
  cases hf : firstIdx text '[' with
  | none => simp [hf]
  | some s =>
    cases he : lastIdx text ']' with
    | none => simp [hf, he]
    | some e =>
      unfold planPanics at hnp
      rw [hf, he] at hnp
      simp only [decide_eq_false_iff_not, not_lt] at hnp
      dsimp only
      rw [if_pos (by omega), if_pos (by omega)]
      cases hsub : parseStringArray (sliceCh text s (e + 1)) with
      | none => simp [hsub]
      | some qs => simp [hsub]

/-- C5 witness: on the malformed response `"[a]"` the fallback returns the
question verbatim (the bracket substring does not parse). -/
theorem plan_malformed_fallback_witness :
    planQueries "[a]".data "q".data = some ((bracketParse "[a]".data).getD ["q".data]) ∧
    ((bracketParse "[a]".data).getD ["q".data] = [] → bracketParse "[a]".data = some []) :=
  plan_malformed_fallback "[a]".data "q".data (by decide) (by decide)

/-- C8: for every accumulated context, the Reader's context section shows
the five most-recently-appended entries prefixed by the total count when
more than five exist, and all entries otherwise; every shown entry is
`truncate`d, and `truncate` always returns a character-prefix of the
original (never splitting a character) of at most 200 bytes and hence at
most 200 characters. -/
theorem reader_context_window_truncation (ctx : List Str) :
    (ctx.length > 5 →
      shownEntries ctx = (ctx.drop (ctx.length - 5)).map (fun p => truncate p 200) ∧
      (shownEntries ctx).length = 5 ∧
      ∃ rest, contextSummary ctx =
        natStr ctx.length ++ " passages accumulated so far. Latest 5:\n".data ++ rest) ∧
    (ctx.length ≤ 5 → shownEntries ctx = ctx.map (fun p => truncate p 200)) ∧
    ∀ p : Str, (∃ t, p = truncate p 200 ++ t) ∧
      utf8Len (truncate p 200) ≤ 200 ∧ (truncate p 200).length ≤ 200 := by
  refine ⟨fun h5 => ⟨shownEntries_gt5 ctx h5, ?_, ?_⟩, fun h5 => ?_,
    fun p => ⟨truncate_append p 200, truncate_utf8Len_le p 200, truncate_length_le p 200⟩⟩
  · rw [shownEntries_gt5 ctx h5]
    simp only [List.length_map, List.length_drop]
    omega
  · exact ⟨labelJoin "Context".data (shownEntries ctx), by unfold contextSummary; rw [if_pos h5]⟩
  · unfold shownEntries
    rw [if_neg (by omega)]

/-- C8 witness: a six-entry context shows exactly five entries, and a
multi-byte text stays within the 200-byte budget when truncated. -/
theorem reader_context_window_truncation_witness :
    (shownEntries ctx8).length = 5 ∧ utf8Len (truncate "ααα".data 200) ≤ 200 :=
  ⟨((reader_context_window_truncation ctx8).1 (by decide)).2.1,
   ((reader_context_window_truncation ctx8).2.2 "ααα".data).2.1⟩

/-- C10: when the HTTP status is a success and the parsed envelope has an
empty `choices` list or a `null` message content, `complete` returns `Ok`
with empty text and the envelope's reported token counts (and cost),
rather than an error. -/
theorem complete_empty_choices_ok (status : Nat) (r : ChatCompletionResponse)
    (hs1 : 200 ≤ status) (hs2 : status ≤ 299)
    (h : r.choices = [] ∨ ∃ c rest, r.choices = c :: rest ∧ c.message.content = none) :
    completeResult status (some r) =
      Except.ok
        { text := []
          input_tokens := r.usage.prompt_tokens
          output_tokens := r.usage.completion_tokens
          cost := r.usage.cost.getD 0 } := by
  unfold completeResult
  rw [if_neg (not_not_intro ⟨hs1, hs2⟩)]
  rcases h with h | ⟨c, rest, hc, hnone⟩
  · simp [h]
  · simp [hc, hnone]

/-- C2: any failing Model Invoker or Retriever call aborts the run with
that error and persists nothing; records reach the telemetry store only on
a fully successful run; plan, hop-loop and synthesizer failures propagate
verbatim, and search or reader failures abort the hop loop with their
error. -/
theorem ask_failure_aborts_without_telemetry (env : Env) (question : Str) :
    (∀ e, (ask env question).1 = some (Except.error e) → (ask env question).2 = []) ∧
    (∀ run, run ∈ (ask env question).2 → (ask env question).1 = some (Except.ok run)) ∧
    (∀ e, env.llmPlan = Except.error e → ask env question = (some (Except.error e), [])) ∧
    (∀ e pr queries, env.llmPlan = Except.ok pr →
      planQueries pr.text question = some queries →
      hopLoop env question 0 env.maxHops queries [] [] [] = some (Except.error e) →
      ask env question = (some (Except.error e), [])) ∧
    (∀ e pr queries hops ctx trc, env.llmPlan = Except.ok pr →
      planQueries pr.text question = some queries →
      hopLoop env question 0 env.maxHops queries [] [] [] =
        some (Except.ok (hops, ctx, trc)) →
      env.llmSynth (buildSynthPrompt question ctx) = Except.error e →
      ask env question = (some (Except.error e), [])) ∧
    (∀ e hopn r pending ctx hops trc, pending ≠ [] →
      env.search (joinWith " ".data pending) env.topK = Except.error e →
      hopLoop env question hopn (r + 1) pending ctx hops trc = some (Except.error e)) ∧
    (∀ e hopn r pending ctx hops trc passages, pending ≠ [] →
      env.search (joinWith " ".data pending) env.topK = Except.ok passages →
      env.llmReader (buildReaderPrompt question passages (ctx ++ passages)) =
        Except.error e →
      hopLoop env question hopn (r + 1) pending ctx hops trc = some (Except.error e)) := by
  refine ⟨?_, ?_, ?_, ?_, ?_, ?_, ?_⟩
  · intro e he
    cases hc : askCore env question with
    | none => simp [ask, hc]
    | some res =>
      cases res with
      | error e2 => simp [ask, hc]
      | ok p =>
        obtain ⟨run, tr⟩ := p
        cases hw : env.writeResult with
        | error e2 => simp [ask, hc, hw]
        | ok u => simp [ask, hc, hw] at he
  · intro run hmem
    cases hc : askCore env question with
    | none => simp [ask, hc] at hmem
    | some res =>
      cases res with
      | error e2 => simp [ask, hc] at hmem
      | ok p =>
        obtain ⟨run2, tr⟩ := p
        cases hw : env.writeResult with
        | error e2 => simp [ask, hc, hw] at hmem
        | ok u =>
          simp only [ask, hc, hw, List.mem_singleton] at hmem
          rw [hmem]
          simp [ask, hc, hw]
  · intro e he
    simp [ask, askCore, he]
  · intro e pr queries h1 h2 h3
    simp [ask, askCore, h1, h2, h3]
  · intro e pr queries hops ctx trc h1 h2 h3 h4
    simp [ask, askCore, h1, h2, h3, h4]
  · intro e hopn r pending ctx hops trc hpend hsearch
    simp [hopLoop, hpend, hsearch]
  · intro e hopn r pending ctx hops trc passages hpend hsearch hreader
    simp [hopLoop, hpend, hsearch, hreader]

/-- C2 witness: in the environment whose planner call fails, that error is
returned and nothing is persisted. -/
theorem ask_failure_aborts_without_telemetry_witness :
    ask envC2 "q".data = (some (Except.error "boom"), []) :=
  (ask_failure_aborts_without_telemetry envC2 "q".data).2.2.1 "boom" rfl

/-- C3 counterexample: in the run of `envC3`, the recorded input-token
total is `0` while the exact sum of the per-step counters is `2 ^ 32`. -/
theorem run_totals_overflow_cex :
    runTotalsView (askCore envC3 "q".data) = some (0, 4294967296) := by decide

/-- C3 (amended): for every successfully completed run, the recorded
token totals equal the sums of the plan, synthesis and per-hop counters
reduced modulo `2 ^ 32` — hence exactly whenever the mathematical sum is
below `2 ^ 32` — and the recorded cost total is exactly the plan cost
plus the synthesis cost plus the sum of the per-hop costs. -/
theorem run_totals_exact_sum_mod (env : Env) (question : Str) (run : RunLog) (tr : RunTrace)
    (h : askCore env question = some (Except.ok (run, tr))) :
    (run.total_llm_input_tokens =
      (run.plan_input_tokens + run.synthesis_input_tokens +
        (run.hops.map (fun hp => hp.llm_input_tokens)).sum) % u32W ∧
     (run.plan_input_tokens + run.synthesis_input_tokens +
        (run.hops.map (fun hp => hp.llm_input_tokens)).sum < u32W →
      run.total_llm_input_tokens =
        run.plan_input_tokens + run.synthesis_input_tokens +
          (run.hops.map (fun hp => hp.llm_input_tokens)).sum)) ∧
    (run.total_llm_output_tokens =
      (run.plan_output_tokens + run.synthesis_output_tokens +
        (run.hops.map (fun hp => hp.llm_output_tokens)).sum) % u32W ∧
     (run.plan_output_tokens + run.synthesis_output_tokens +
        (run.hops.map (fun hp => hp.llm_output_tokens)).sum < u32W →
      run.total_llm_output_tokens =
        run.plan_output_tokens + run.synthesis_output_tokens +
          (run.hops.map (fun hp => hp.llm_output_tokens)).sum)) ∧
    run.total_cost =
      tr.planResp.cost + tr.synthResp.cost + (run.hops.map (fun hp => hp.llm_cost)).sum := by
  obtain ⟨-, -, -, hrun⟩ := askCore_ok env question run tr h
  have hin : run.total_llm_input_tokens =
      (run.plan_input_tokens + run.synthesis_input_tokens +
        (run.hops.map (fun hp => hp.llm_input_tokens)).sum) % u32W := by
    conv_lhs => rw [hrun]
    conv_rhs => rw [hrun]
    simp only [mkRunLog, u32sum_eq]
    conv_rhs => rw [Nat.add_mod]
  have hout : run.total_llm_output_tokens =
      (run.plan_output_tokens + run.synthesis_output_tokens +
        (run.hops.map (fun hp => hp.llm_output_tokens)).sum) % u32W := by
    conv_lhs => rw [hrun]
    conv_rhs => rw [hrun]
    simp only [mkRunLog, u32sum_eq]
    conv_rhs => rw [Nat.add_mod]
  refine ⟨⟨hin, fun hlt => ?_⟩, ⟨hout, fun hlt => ?_⟩, ?_⟩
  · rw [hin, Nat.mod_eq_of_lt hlt]
  · rw [hout, Nat.mod_eq_of_lt hlt]
  · conv_lhs => rw [hrun]
    conv_rhs => rw [hrun]
    simp [mkRunLog]

/-- C3 witness: in the small-token run of `envC3w` the recorded totals
are the exact sums (30 input tokens, cost 6). -/
theorem run_totals_exact_sum_mod_witness :
    runC3w.total_llm_input_tokens = 30 ∧ runC3w.total_cost = 6 := by
  have h2 := run_totals_exact_sum_mod envC3w "q".data runC3w trC3w rfl
  have h3 := h2.1.2 (by decide)
  refine ⟨h3.trans (by decide), h2.2.2.trans ?_⟩
  simp [trC3w, runC3w, mkRunLog]
  norm_num

/-- C4: at most `max_hops` hop rows are ever recorded; every successful
run's answer comes from a Synthesizer call over the final accumulated
context; and with `max_hops = 0` the run performs zero hops and
synthesizes over the empty context, terminating without error. -/
theorem hop_cap_and_zero_hops (env : Env) (question : Str) :
    (∀ run tr, askCore env question = some (Except.ok (run, tr)) →
      run.hops.length ≤ env.maxHops ∧
      env.llmSynth (buildSynthPrompt question tr.finalCtx) = Except.ok tr.synthResp ∧
      run.final_answer = tr.synthResp.text) ∧
    (∀ pr sr queries, env.maxHops = 0 → env.llmPlan = Except.ok pr →
      planQueries pr.text question = some queries →
      env.llmSynth (buildSynthPrompt question []) = Except.ok sr →
      runShape (askCore env question) = some (0, [], sr.text)) := by
  constructor
  · intro run tr h
    obtain ⟨-, ⟨queries, -, hl⟩, hs, hrun⟩ := askCore_ok env question run tr h
    refine ⟨?_, hs, ?_⟩
    · have h2 := hopLoop_length env question env.maxHops 0 queries [] [] []
        run.hops tr.finalCtx tr.ctxTrace hl
      simpa using h2
    · conv_lhs => rw [hrun]
      rfl
  · intro pr sr queries h0 hp hq hs
    simp [runShape, askCore, hp, hq, h0, hs, hopLoop, mkRunLog]

/-- C4 witness: with `max_hops = 0` the run records zero hops and
synthesizes over the empty context. -/
theorem hop_cap_and_zero_hops_witness :
    runShape (askCore envC4 "q".data) = some (0, [], "ans".data) :=
  (hop_cap_and_zero_hops envC4 "q".data).2
    { text := "[\"a\"]".data, input_tokens := 1, output_tokens := 1, cost := 0 }
    { text := "ans".data, input_tokens := 1, output_tokens := 1, cost := 0 }
    ["a".data] rfl rfl (by decide) rfl

/-- C7: within one run the accumulated context only ever grows by
appending, at each hop, exactly the passages that hop's retriever call
returned, in retrieval order: each traced context extends the previous
one as a list, and the context length never decreases. -/
theorem context_append_only (env : Env) (question : Str) (T : List (List Str))
    (h : traceOf (askCore env question) = some T) :
    ctxChain env [] T ∧
    (∀ i, i + 1 < T.length →
      (∃ ps, T.getD (i + 1) [] = T.getD i [] ++ ps) ∧
      (T.getD i []).length ≤ (T.getD (i + 1) []).length) := by
  unfold traceOf at h
  split at h
  · rename_i run tr heq
    simp only [Option.some.injEq] at h
    subst h
    obtain ⟨-, ⟨queries, -, hl⟩, -, -⟩ := askCore_ok env question run tr heq
    obtain ⟨d, hd, hchain⟩ := hopLoop_chain env question env.maxHops 0 queries [] [] []
      run.hops tr.finalCtx tr.ctxTrace hl
    rw [List.nil_append] at hd
    subst hd
    refine ⟨hchain, fun i hi => ?_⟩
    obtain ⟨ps, hps⟩ := ctxChain_getD env tr.ctxTrace [] hchain i hi
    exact ⟨⟨ps, hps⟩, by rw [hps]; simp⟩
  · exact absurd h (by simp)

/-- C7 witness: the two-hop run of `envC7` traces contexts that grow by
appending the passage each hop retrieved. -/
theorem context_append_only_witness :
    ctxChain envC7 [] [["p1".data], ["p1".data, "p2".data]] :=
  (context_append_only envC7 "q".data [["p1".data], ["p1".data, "p2".data]] (by decide)).1

/-- C9: batch evaluation catches a failing question, counts it, excludes
it from the aggregates and continues; the printed summary reports the
successful-question count, the error count, mean hops, mean latency,
summed tokens and summed cost computed over exactly the successful
runs. -/
theorem eval_isolates_failures (outcomes : List (Except Err RunLog)) :
    (evalLoop outcomes).1 = outcomes.filterMap okRun ∧
    (evalLoop outcomes).2 = (outcomes.filter isErrRun).length ∧
    (evalLoop outcomes).1.length + (evalLoop outcomes).2 = outcomes.length ∧
    (∀ runs errors, evalLoop outcomes = (runs, errors) → runs ≠ [] →
      evalSummary runs errors = some
        { questions := runs.length
          errors := errors
          avg_hops :=
            (((runs.map (fun r => r.hops.length)).sum : Nat) : ℚ) / ((runs.length : Nat) : ℚ)
          avg_latency_ms :=
            (((runs.map (fun r => r.total_latency_ms)).sum : Nat) : ℚ) / ((runs.length : Nat) : ℚ)
          total_tokens := u32sum (runs.map total_tokens)
          total_cost := (runs.map estimated_cost).sum }) := by
  have h := evalLoop_aux outcomes [] 0
  have h1 : (evalLoop outcomes).1 = outcomes.filterMap okRun := by
    unfold evalLoop
    rw [h]
    simp
  have h2 : (evalLoop outcomes).2 = (outcomes.filter isErrRun).length := by
    unfold evalLoop
    rw [h]
    simp
  refine ⟨h1, h2, ?_, ?_⟩
  · rw [h1, h2]
    exact okRun_count outcomes
  · intro runs errors heq hne
    unfold evalSummary
    rw [if_neg hne]

/-- C9 witness: two successes around one failure: every question is
processed and the summary aggregates only the two successful runs. -/
theorem eval_isolates_failures_witness :
    (evalLoop outsC9).1.length + (evalLoop outsC9).2 = outsC9.length ∧
    evalSummary [rw1, rw2] 1 = some
      { questions := 2, errors := 1, avg_hops := (1 : ℚ) / 2, avg_latency_ms := 5
        total_tokens := 20, total_cost := 3 } := by
  have h := eval_isolates_failures outsC9
  refine ⟨h.2.2.1, ?_⟩
  have h4 := h.2.2.2 [rw1, rw2] 1 (by rfl) (by simp)
  refine h4.trans ?_
  simp [rw1, rw2, total_tokens, estimated_cost, u32sum, u32W]
  norm_num

/-- C10 witness: a 200-status envelope with no choices yields `Ok` with
empty text and the reported token counts. -/
theorem complete_empty_choices_ok_witness :
    completeResult 200
        (some { choices := []
                usage := { prompt_tokens := 3, completion_tokens := 0, cost := none } }) =
      Except.ok { text := [], input_tokens := 3, output_tokens := 0, cost := 0 } := by
  have h := complete_empty_choices_ok 200
    { choices := [], usage := { prompt_tokens := 3, completion_tokens := 0, cost := none } }
    (by decide) (by decide) (Or.inl rfl)
  exact h.trans (by decide)

end AgenticSearch
